import Mathlib

/-!
Shallow embedding of the configuration-bridge, session-lifecycle,
version-resolver and binary-locator logic of `src/zls.ts` (the ZLS
integration of the vscode-zig extension), together with theorems that
settle the specification claims about that code.

External collaborators (the vscode settings store, `getZigPath`,
`handleConfigOption`, `getVersion`, the network, the user's prompt
choices) are modelled as explicit inputs to the embedded functions, so
every definition is executable on concrete inputs.
-/

set_option autoImplicit false

namespace VZ

/-- Protocol values (`LSPAny`): enough structure for the configuration
exchange — null, booleans, integers and strings. -/
inductive Val where
  | vnull
  | vbool (b : Bool)
  | vint (n : Int)
  | vstr (s : String)
deriving DecidableEq, Repr

/-- Lookup in a string-keyed association list (first match), the model of
reading a JavaScript object property / `Map` entry. -/
def getAssoc {α : Type} : List (String × α) → String → Option α
  | [], _ => none
  | p :: rest, k => if p.1 = k then some p.2 else getAssoc rest k

/-- Write a JavaScript object property: replace the value of an existing
key in place, or append a fresh key at the end (insertion order kept). -/
def setAssoc {α : Type} : List (String × α) → String → α → List (String × α)
  | [], k, v => [(k, v)]
  | p :: rest, k, v => if p.1 = k then (k, v) :: rest else p :: setAssoc rest k v

/-- Remove a key, the model of rest-destructuring an object without one
property (`const { [k]: _, ...rest } = obj`). -/
def removeKey {α : Type} (l : List (String × α)) (k : String) : List (String × α) :=
  l.filter (fun p => p.1 ≠ k)

/-- Characters treated as word separators by the `camelcase` npm package
(the regex class `[_.\- ]`). -/
def isSeparatorChar (c : Char) : Bool :=
  c == '_' || c == '.' || c == '-' || c == ' '

/-- Characters of the regex class `[\p{Alpha}\p{N}_]` restricted to ASCII. -/
def isWordLikeChar (c : Char) : Bool :=
  c.isAlpha || c.isDigit || c == '_'

/-- Separator pass of the `camelcase` package: a separator run followed by
a word character is replaced by that character upper-cased; a trailing
separator run is dropped. The first argument is the pending separator run. -/
def camelSepGo : List Char → List Char → List Char
  | _, [] => []
  | pend, c :: cs =>
    if isSeparatorChar c then camelSepGo (pend ++ [c]) cs
    else if pend.isEmpty then c :: camelSepGo [] cs
    else if isWordLikeChar c then c.toUpper :: camelSepGo [] cs
    else pend ++ c :: camelSepGo [] cs

/-- Digit pass of the `camelcase` package (regex `\d+([\p{Alpha}\p{N}_]|$)`
upper-cased): a letter directly after a digit run is upper-cased. -/
def camelDigitGo : List Char → List Char
  | [] => []
  | c :: cs =>
    if c.isDigit then
      match cs with
      | [] => [c]
      | d :: ds =>
        if d.isDigit then c :: camelDigitGo (d :: ds)
        else if d.isAlpha then c :: d.toUpper :: camelDigitGo ds
        else c :: d :: camelDigitGo ds
    else c :: camelDigitGo cs

/-- Drop of the first `n` characters of a string (the model of
`String.prototype.slice(n)` for the ASCII strings handled here), defined
structurally so that concrete instances evaluate in the kernel. -/
def strDrop (s : String) (n : Nat) : String :=
  String.mk (s.toList.drop n)

/-- ASCII whitespace, for the `trim` step of the `camelcase` package. -/
def isWsChar (c : Char) : Bool :=
  c == ' ' || c == '\t' || c == '\n' || c == '\r'

/-- Structural string trim (ASCII whitespace). -/
def strTrim (s : String) : String :=
  String.mk (((s.toList.dropWhile isWsChar).reverse.dropWhile isWsChar).reverse)

/-- Model of the external npm `camelcase` dependency with default options,
faithful for its use in `zls.ts`: inputs without upper-case letters whose
separator runs are followed by an alphanumeric character or the end of the
string (ZLS section names are lower-case snake_case). -/
def camelCase (input : String) : String :=
  let t := strTrim input
  if t.toList.length = 0 then ""
  else if t.toList.length = 1 then String.mk (t.toList.map Char.toLower)
  else
    let chars := (t.toList.dropWhile isSeparatorChar).map Char.toLower
    String.mk (camelDigitGo (camelSepGo [] chars))

/-- One entry of a `workspace/configuration` request
(`ConfigurationItem`): an optional section name and an optional scope. -/
structure ConfigItem where
  sectionName : Option String
  scopeUri : Option String := none
deriving DecidableEq, Repr

/-- Section-name rewriting of `configurationMiddleware` (zls.ts:157-161):
the hard-coded legacy alias maps to the compiler-path setting, every other
section maps to the `zig.zls.` namespace with its first four characters
removed and the rest camel-cased. -/
def rewriteSection (s : String) : String :=
  if s = "zls.zig_exe_path" then "zig.path"
  else "zig.zls." ++ camelCase (strDrop s 4)

/-- Rewriting applied to one request item; an absent or empty section is
left untouched (`if (param.section)` is falsy for the empty string). -/
def rewriteItem (p : ConfigItem) : ConfigItem :=
  match p.sectionName with
  | none => p
  | some s => if s = "" then p else { p with sectionName := some (rewriteSection s) }

/-- The `params.items.forEach` pass of `configurationMiddleware`
(zls.ts:155-164): rewrite every section in place and record
`optionIndices[param.section] = index` (last occurrence wins). `i` is the
index of the first item of the remaining list, `idxs` the map built so far. -/
def processItemsGo (idxs : List (String × Nat)) (i : Nat) :
    List ConfigItem → List ConfigItem × List (String × Nat)
  | [] => ([], idxs)
  | p :: rest =>
    match p.sectionName with
    | none =>
      let r := processItemsGo idxs (i + 1) rest
      (p :: r.1, r.2)
    | some s =>
      if s = "" then
        let r := processItemsGo idxs (i + 1) rest
        (p :: r.1, r.2)
      else
        let s' := rewriteSection s
        let r := processItemsGo (setAssoc idxs s' i) (i + 1) rest
        ({ p with sectionName := some s' } :: r.1, r.2)

/-- Rewritten items plus the `optionIndices` record of
`configurationMiddleware`. -/
def processItems (params : List ConfigItem) : List ConfigItem × List (String × Nat) :=
  processItemsGo [] 0 params

/-- User choice at the `additionalOptions` conflict prompt
(zls.ts:201-219): migrate the value, open the settings JSON, or dismiss. -/
inductive PromptResponse where
  | useInstead
  | showSettings
  | dismissed
deriving DecidableEq, Repr

/-- Observable side effects of `configurationMiddleware`: the conflict
warning prompt, the two settings-store writes of the migration branch, and
opening the raw settings JSON. -/
inductive Effect where
  | warnPrompt (optionName : String)
  | updateAdditionalOptions (opts : List (String × Val))
  | updateSetting (sec : String) (v : Val)
  | openSettingsJson
deriving DecidableEq, Repr

/-- Environment of one `configurationMiddleware` call: the vscode
`zig.zls` configuration (`get`, `inspect(...)?.defaultValue`,
`additionalOptions`), the external helpers `handleConfigOption` and
`getZigPath` (which may throw), and the user's prompt choices. -/
structure Env where
  get : String → Option Val
  inspectDefault : String → Option Val
  additionalOptions : List (String × Val)
  handleConfigOption : String → String
  zigPath : Except Unit String
  prompt : String → PromptResponse

/-- A protocol-level `ResponseError` returned by the continuation. -/
structure ResponseErr where
  code : Int
  message : String
deriving DecidableEq, Repr

/-- The string-normalization loop of `configurationMiddleware`
(zls.ts:173-180): for every recorded name, if the editor's resolved value
is a non-empty string, overwrite that slot with `handleConfigOption` of it. -/
def stringNormalize (env : Env) : List (String × Nat) → List Val → List Val
  | [], res => res
  | p :: rest, res =>
    match env.get (strDrop p.1 "zig.zls.".length) with
    | some (Val.vstr s) =>
      if s = "" then stringNormalize env rest res
      else stringNormalize env rest (res.set p.2 (Val.vstr (env.handleConfigOption s)))
    | _ => stringNormalize env rest res

/-- The compiler-path injection of `configurationMiddleware`
(zls.ts:182-191): if the legacy alias was recorded, write `getZigPath()`
into its slot, or null if discovery throws. -/
def injectZigPath (env : Env) (idxs : List (String × Nat)) (res : List Val) : List Val :=
  match getAssoc idxs "zig.path" with
  | none => res
  | some idx =>
    match env.zigPath with
    | Except.ok p => res.set idx (Val.vstr p)
    | Except.error _ => res.set idx Val.vnull

/-- The response-slot write at the end of the `additionalOptions` loop
(zls.ts:222-228). `if (!optionIndex) continue` skips both an absent index
and index `0`, because `0` is falsy in JavaScript. -/
def applySlot (idxs : List (String × Nat)) (k : String) (v : Val) (res : List Val) : List Val :=
  match getAssoc idxs k with
  | none => res
  | some idx => if idx = 0 then res else res.set idx v

/-- One iteration of the `additionalOptions` loop (zls.ts:195-229):
conflict detection against a statically-known setting, the prompt and its
three outcomes, then the guarded response-slot write. Returns the updated
response array and the effects of this iteration. -/
def applyEntry (env : Env) (idxs : List (String × Nat)) (k : String) (v : Val)
    (res : List Val) : List Val × List Effect :=
  let sec := strDrop k "zig.zls.".length
  if (env.inspectDefault sec).isSome then
    match env.prompt k with
    | PromptResponse.useInstead =>
      (applySlot idxs k v res,
       [Effect.warnPrompt k,
        Effect.updateAdditionalOptions (removeKey env.additionalOptions k),
        Effect.updateSetting sec v])
    | PromptResponse.showSettings =>
      (res, [Effect.warnPrompt k, Effect.openSettingsJson])
    | PromptResponse.dismissed =>
      (res, [Effect.warnPrompt k])
  else (applySlot idxs k v res, [])

/-- The whole `additionalOptions` loop, iterating the map entries in
insertion order. -/
def applyAdditionalOptions (env : Env) (idxs : List (String × Nat)) :
    List (String × Val) → List Val → List Val × List Effect
  | [], res => (res, [])
  | (k, v) :: rest, res =>
    let s1 := applyEntry env idxs k v res
    let s2 := applyAdditionalOptions env idxs rest s1.1
    (s2.1, s1.2 ++ s2.2)

/-- The configuration bridge `configurationMiddleware` (zls.ts:148-232):
rewrite sections and record indices, run the continuation, propagate a
protocol error unchanged, otherwise normalize string settings, inject the
compiler path, and merge `additionalOptions`. Returns the response (or
error) together with the side effects performed. -/
def configurationMiddleware (env : Env) (params : List ConfigItem)
    (next : List ConfigItem → Except ResponseErr (List Val)) :
    Except ResponseErr (List Val) × List Effect :=
  let pr := processItems params
  match next pr.1 with
  | Except.error e => (Except.error e, [])
  | Except.ok res =>
    let r1 := stringNormalize env pr.2 res
    let r2 := injectZigPath env pr.2 r1
    let r3 := applyAdditionalOptions env pr.2 env.additionalOptions r2
    (Except.ok r3.1, r3.2)

/-- Whether the `additionalOptions` entry named `k` conflicts with a
statically-known setting (zls.ts:198). -/
def conflictOf (env : Env) (k : String) : Bool :=
  (env.inspectDefault (strDrop k "zig.zls.".length)).isSome

/-- Whether the iteration for entry `k` reaches the response-slot write:
it does unless a conflict was detected and the user chose something other
than migration. -/
def entryWrites (env : Env) (k : String) : Prop :=
  conflictOf env k = false ∨ env.prompt k = PromptResponse.useInstead

instance (env : Env) (k : String) : Decidable (entryWrites env k) := by
  unfold entryWrites; infer_instance

/-- The effects of one `additionalOptions` iteration, independent of the
response array. -/
def entryEffects (env : Env) (k : String) (v : Val) : List Effect :=
  let sec := strDrop k "zig.zls.".length
  if (env.inspectDefault sec).isSome then
    match env.prompt k with
    | PromptResponse.useInstead =>
      [Effect.warnPrompt k,
       Effect.updateAdditionalOptions (removeKey env.additionalOptions k),
       Effect.updateSetting sec v]
    | PromptResponse.showSettings => [Effect.warnPrompt k, Effect.openSettingsJson]
    | PromptResponse.dismissed => [Effect.warnPrompt k]
  else []

/-- Recognizer for the conflict prompt among the effects. -/
def isWarnPromptB : Effect → Bool
  | Effect.warnPrompt _ => true
  | _ => false

/-! ### Session lifecycle (`restartClient`, zls.ts:29-50, 78-85) -/

/-- The tri-state `zig.zls.enabled` setting. -/
inductive ZlsEnabled where
  | ask
  | off
  | on
deriving DecidableEq, Repr

/-- Primitive session events of a `restartClient` run. `stop` covers the
`stopClient` teardown (shutdown notification followed by dispose) of one
session, identified by a number. -/
inductive SessionEvent where
  | start (s : Nat)
  | stop (s : Nat)
deriving DecidableEq, Repr

/-- Environment of one `restartClient` call: the truthiness of the
`zig.zls.path` setting, the `enabled` setting, the result of `getZLSPath`
(already `none` when resolution aborted), and the outcome of
`startClient` — a new session, or the thrown value's `.message` when it is
an `Error`, or `none` for a thrown non-`Error`. -/
structure RestartEnv where
  pathSet : Bool
  enabled : ZlsEnabled
  located : Option String
  startResult : Except (Option String) Nat

/-- Outcome of `restartClient`: the value of the module-level `client`
variable afterwards, the session events in order, and the warning
messages shown. -/
structure RestartOutcome where
  client : Option Nat
  events : List SessionEvent
  warnings : List String
deriving DecidableEq, Repr

/-- Events of `stopClient` (zls.ts:78-85): nothing when no client is
live, otherwise stop the live one. -/
def stopEvents (client : Option Nat) : List SessionEvent :=
  match client with
  | none => []
  | some c => [SessionEvent.stop c]

/-- The `restartClient` control flow (zls.ts:29-50): the disable path
stops any live session; a failed path resolution leaves everything
untouched; otherwise the new session is started first, then the old one
is stopped; a `startClient` exception leaves the old session untouched
and surfaces a warning. -/
def restartClient (env : RestartEnv) (client : Option Nat) : RestartOutcome :=
  if env.pathSet = false ∧ env.enabled ≠ ZlsEnabled.on then
    { client := none, events := stopEvents client, warnings := [] }
  else
    match env.located with
    | none => { client := client, events := [], warnings := [] }
    | some _ =>
      match env.startResult with
      | Except.ok s =>
        { client := some s,
          events := SessionEvent.start s :: stopEvents client,
          warnings := [] }
      | Except.error m =>
        { client := client,
          events := [],
          warnings := [match m with
            | some msg => "Failed to run Zig Language Server (ZLS): " ++ msg
            | none => "Failed to run Zig Language Server (ZLS)"] }

/-- Live-session bookkeeping: apply one event to the list of live
sessions (a `stop` tears down one session instance). -/
def applyEvent (live : List Nat) : SessionEvent → List Nat
  | SessionEvent.start s => live ++ [s]
  | SessionEvent.stop s => live.erase s

/-- All intermediate live-session sets along a list of events, starting
from `init` (the sets before and after each event). -/
def liveSnapshots (init : List Nat) : List SessionEvent → List (List Nat)
  | [] => [init]
  | e :: rest => init :: liveSnapshots (applyEvent init e) rest

/-! ### Binary locator and version verifier (`getZLSPath`, zls.ts:88-146) -/

/-- Semantic version, numeric fields plus the raw text (`semver.SemVer`). -/
structure SemVer where
  major : Nat
  minor : Nat
  patch : Nat
  raw : String
deriving DecidableEq, Repr

/-- Numeric comparison of the modelled `semver` fields
(`SemVer.prototype.compare`). -/
def SemVer.compare (a b : SemVer) : Int :=
  if a.major < b.major then -1
  else if b.major < a.major then 1
  else if a.minor < b.minor then -1
  else if b.minor < a.minor then 1
  else if a.patch < b.patch then -1
  else if b.patch < a.patch then 1
  else 0

/-- Artifact entry of the version-selection response. -/
structure ArtifactEntry where
  tarball : String
  shasum : String
  size : String
deriving DecidableEq, Repr

/-- Environment of one `getZLSPath` call. The collaborators are inputs:
the `zig.zls.path` setting (`""` when unset — the code treats the empty
string as falsy), the `enabled` setting, the compiler version probe
(`getVersion(getZigPath(), "version")`, which can throw or return null),
the resolver outcome (`fetchVersion`, abstracted to its returned version
and artifact), the platform, the storage root, the `existsSync` probe,
the installer outcome, and the version probe of the ZLS executable
(`getVersion(path, "--version")`, null when unparseable). -/
structure LocateEnv where
  configPath : String
  enabled : ZlsEnabled
  zigVersion : Except Unit (Option SemVer)
  fetched : Option (SemVer × ArtifactEntry)
  isWindows : Bool
  storageRoot : String
  existsAt : String → Bool
  installOk : Bool
  reported : String → Option SemVer

/-- Acquisition phase of `getZLSPath` (zls.ts:90-127): decide the
executable path and the expected version (`none` on the user-override
path), or fail with the error messages shown. -/
def locateExe (env : LocateEnv) : Except (List String) (String × Option SemVer) :=
  if env.configPath ≠ "" then Except.ok (env.configPath, none)
  else if env.enabled ≠ ZlsEnabled.on then Except.error []
  else
    match env.zigVersion with
    | Except.error _ => Except.error []
    | Except.ok none => Except.error []
    | Except.ok (some _) =>
      match env.fetched with
      | none => Except.error []
      | some (v, _) =>
        let installDir := env.storageRoot ++ "/zls/" ++ v.raw
        let exePath := installDir ++ "/" ++ (if env.isWindows then "zls.exe" else "zls")
        if env.existsAt exePath then Except.ok (exePath, some v)
        else if env.installOk then Except.ok (exePath, some v)
        else Except.error ["Failed to install ZLS " ++ v.raw ++ "!"]

/-- `getZLSPath` (zls.ts:88-146): acquisition followed by the version
verifier (zls.ts:129-145). Returns the executable path with its checked
version, or `none`, together with the error messages shown. -/
def getZLSPath (env : LocateEnv) : Option (String × SemVer) × List String :=
  match locateExe env with
  | Except.error msgs => (none, msgs)
  | Except.ok (exePath, expected) =>
    match env.reported exePath with
    | none =>
      (none, ["Unable to check ZLS version. " ++ exePath ++ " --version failed!"])
    | some checked =>
      match expected with
      | some v =>
        if SemVer.compare checked v ≠ 0 then
          (none, ["Encountered unexpected ZLS version. Expected " ++ v.raw ++
            " from " ++ exePath ++ " --version but got " ++ checked.raw ++ "!"])
        else (some (exePath, checked), [])
      | none => (some (exePath, checked), [])

/-! ### Version resolver (`fetchVersion`, zls.ts:264-325) -/

/-- The raw JSON of the select-version service, kept close to the wire
shape: an optional `message` field (its presence is the failure-shape
signal), an optional `code`, the success fields, and the per-platform
artifact table. -/
structure RawResponse where
  message? : Option String
  code? : Option Int
  version : String
  date : String
  artifacts : List (String × ArtifactEntry)
deriving DecidableEq, Repr

/-- A value thrown by the HTTP client: whether it is an `Error` instance,
and its message. -/
structure NetError where
  isError : Bool
  message : String
deriving DecidableEq, Repr

/-- Result of `fetchVersion`: a selected version with its artifact, the
`null` outcome, or a re-raised non-`Error` thrown value
(`throw err`, zls.ts:301). -/
inductive FetchOutcome where
  | found (version : String) (artifact : ArtifactEntry)
  | notFound
  | rethrown
deriving DecidableEq, Repr

/-- The persisted `globalState` cache, keyed by
`zls-select-version-<zigVersion>`. -/
abbrev Cache := List (String × RawResponse)

/-- Shape inspection shared by the network and cache paths of
`fetchVersion` (zls.ts:307-325): a `message` field signals the failure
shape; otherwise the host name must be an artifact key. Returns the
outcome and the error messages shown. -/
def interpretResponse (hostName : String) (r : RawResponse) :
    FetchOutcome × List String :=
  match r.message? with
  | some m => (FetchOutcome.notFound, ["Unable to fetch ZLS: " ++ m])
  | none =>
    match getAssoc r.artifacts hostName with
    | none =>
      (FetchOutcome.notFound,
       ["A prebuilt ZLS " ++ r.version ++ " binary is not available for your system." ++
        " You can build it yourself with https://github.com/zigtools/zls#from-source"])
    | some art => (FetchOutcome.found r.version art, [])

/-- `fetchVersion` (zls.ts:264-325). `network` is the outcome of the
`axios.get` call. On success the raw response is cached (before any shape
inspection) when `useCache` is set; on failure the cache is consulted
when `useCache` is set, and with no cached value an `Error` is surfaced
as a message with a `null` return while a non-`Error` is re-raised.
Returns the outcome, the updated cache, and the messages shown. -/
def fetchVersion (network : Except NetError RawResponse) (hostName : String)
    (zigVersionRaw : String) (useCache : Bool) (cache : Cache) :
    FetchOutcome × Cache × List String :=
  let cacheKey := "zls-select-version-" ++ zigVersionRaw
  match network with
  | Except.ok r =>
    let cache' := if useCache then setAssoc cache cacheKey r else cache
    let o := interpretResponse hostName r
    (o.1, cache', o.2)
  | Except.error err =>
    let fallback := if useCache then getAssoc cache cacheKey else none
    match fallback with
    | none =>
      if err.isError then
        (FetchOutcome.notFound, cache, ["Failed to query ZLS version: " ++ err.message])
      else (FetchOutcome.rethrown, cache, [])
    | some r =>
      let o := interpretResponse hostName r
      (o.1, cache, o.2)

/-! ### Association-list lemmas -/

theorem getAssoc_setAssoc {α : Type} (m : List (String × α)) (k k' : String) (v : α) :
    getAssoc (setAssoc m k v) k' = if k = k' then some v else getAssoc m k' := by
  induction m with
  | nil => simp [getAssoc, setAssoc]
  | cons p rest ih =>
    simp only [setAssoc]
    by_cases hpk : p.1 = k
    · rw [if_pos hpk]
      by_cases hkk : k = k'
      · simp [getAssoc, hkk]
      · have hpk' : ¬ p.1 = k' := by rw [hpk]; exact hkk
        simp [getAssoc, hkk, hpk']
    · rw [if_neg hpk]
      by_cases hpk' : p.1 = k'
      · have hkk : ¬ k = k' := fun h => hpk (h ▸ hpk')
        simp [getAssoc, hpk', hkk]
      · simp [getAssoc, hpk', ih]

/-- The effective rewritten section of an item: `none` when the item has
no section or an empty (falsy) one, otherwise the rewritten name. -/
def sectionRewriteOf (p : ConfigItem) : Option String :=
  match p.sectionName with
  | none => none
  | some s => if s = "" then none else some (rewriteSection s)

theorem rewriteItem_of_sectionRewriteOf (p : ConfigItem) :
    rewriteItem p = match sectionRewriteOf p with
                    | none => p
                    | some s' => { p with sectionName := some s' } := by
  unfold rewriteItem sectionRewriteOf
  match p.sectionName with
  | none => rfl
  | some s => by_cases he : s = "" <;> simp [he]

/-- Position of the last item of `l` whose effective rewritten section is
`k` — the specification of the final `optionIndices` content. -/
def lastIdx : List ConfigItem → String → Option Nat
  | [], _ => none
  | p :: rest, k =>
    match (lastIdx rest k).map (· + 1) with
    | some j => some j
    | none =>
      match sectionRewriteOf p with
      | some k' => if k' = k then some 0 else none
      | none => none

theorem processItemsGo_cons (idxs : List (String × Nat)) (i : Nat) (p : ConfigItem)
    (rest : List ConfigItem) :
    processItemsGo idxs i (p :: rest) =
      match sectionRewriteOf p with
      | none =>
        (p :: (processItemsGo idxs (i + 1) rest).1, (processItemsGo idxs (i + 1) rest).2)
      | some s' =>
        ({ p with sectionName := some s' } ::
            (processItemsGo (setAssoc idxs s' i) (i + 1) rest).1,
          (processItemsGo (setAssoc idxs s' i) (i + 1) rest).2) := by
  cases hs : p.sectionName with
  | none => simp [processItemsGo, sectionRewriteOf, hs]
  | some s =>
    by_cases he : s = "" <;> simp [processItemsGo, sectionRewriteOf, hs, he]

theorem processItemsGo_fst (idxs : List (String × Nat)) (i : Nat) (l : List ConfigItem) :
    (processItemsGo idxs i l).1 = l.map rewriteItem := by
  induction l generalizing idxs i with
  | nil => rfl
  | cons p rest ih =>
    simp only [List.map_cons]
    rw [processItemsGo_cons, rewriteItem_of_sectionRewriteOf]
    cases hsro : sectionRewriteOf p with
    | none => simp [ih]
    | some s' => simp [ih]

theorem processItemsGo_snd_get (idxs : List (String × Nat)) (i : Nat)
    (l : List ConfigItem) (k : String) :
    getAssoc (processItemsGo idxs i l).2 k =
      match (lastIdx l k).map (· + i) with
      | some j => some j
      | none => getAssoc idxs k := by
  induction l generalizing idxs i with
  | nil => rfl
  | cons p rest ih =>
    rw [processItemsGo_cons]
    cases hsro : sectionRewriteOf p with
    | none =>
      simp only [lastIdx, hsro]
      rw [ih]
      cases hlr : lastIdx rest k with
      | some j =>
        simp only [Option.map_some', Option.some.injEq]
        omega
      | none => simp
    | some k' =>
      simp only [lastIdx, hsro]
      rw [ih]
      cases hlr : lastIdx rest k with
      | some j =>
        simp only [Option.map_some', Option.some.injEq]
        omega
      | none =>
        simp only [Option.map_none', getAssoc_setAssoc]
        by_cases hk : k' = k
        · simp [hk]
        · simp [hk]

theorem getAssoc_processItems (params : List ConfigItem) (k : String) :
    getAssoc (processItems params).2 k = lastIdx params k := by
  unfold processItems
  rw [processItemsGo_snd_get]
  cases lastIdx params k <;> simp [getAssoc]

theorem lastIdx_bound (l : List ConfigItem) (k : String) (j : Nat)
    (h : lastIdx l k = some j) : j < l.length := by
  induction l generalizing j with
  | nil => simp [lastIdx] at h
  | cons p rest ih =>
    unfold lastIdx at h
    cases hr : lastIdx rest k with
    | some j' =>
      rw [hr] at h
      simp only [Option.map_some', Option.some.injEq] at h
      subst h
      have := ih j' hr
      simp only [List.length_cons]
      omega
    | none =>
      rw [hr] at h
      cases hsro : sectionRewriteOf p with
      | none => rw [hsro] at h; simp at h
      | some k' =>
        rw [hsro] at h
        by_cases hk : k' = k
        · simp [hk] at h
          simp only [List.length_cons]
          omega
        · simp [hk] at h

theorem lastIdx_at (l : List ConfigItem) (k : String) (j : Nat)
    (h : lastIdx l k = some j) :
    ∃ p, l.get? j = some p ∧ sectionRewriteOf p = some k := by
  induction l generalizing j with
  | nil => simp [lastIdx] at h
  | cons p rest ih =>
    unfold lastIdx at h
    cases hr : lastIdx rest k with
    | some j' =>
      rw [hr] at h
      simp only [Option.map_some', Option.some.injEq] at h
      subst h
      obtain ⟨q, hq, hqs⟩ := ih j' hr
      exact ⟨q, by simpa using hq, hqs⟩
    | none =>
      rw [hr] at h
      cases hsro : sectionRewriteOf p with
      | none => rw [hsro] at h; simp at h
      | some k' =>
        rw [hsro] at h
        by_cases hk : k' = k
        · simp [hk] at h
          subst h
          exact ⟨p, by simp, hk ▸ hsro⟩
        · simp [hk] at h

theorem lastIdx_complete (l : List ConfigItem) (k : String) (m : Nat) (p : ConfigItem)
    (hm : l.get? m = some p) (hp : sectionRewriteOf p = some k) :
    (lastIdx l k).isSome := by
  induction l generalizing m with
  | nil => simp at hm
  | cons q rest ih =>
    unfold lastIdx
    match m with
    | 0 =>
      simp only [List.get?_cons_zero, Option.some.injEq] at hm
      subst hm
      cases lastIdx rest k with
      | some j => simp
      | none => simp [hp]
    | Nat.succ m' =>
      have := ih m' (by simpa using hm)
      cases hr : lastIdx rest k with
      | some j => simp
      | none => rw [hr] at this; simp at this

theorem lastIdx_max (l : List ConfigItem) (k : String) (j : Nat)
    (h : lastIdx l k = some j) :
    ∀ m p, l.get? m = some p → sectionRewriteOf p = some k → m ≤ j := by
  induction l generalizing j with
  | nil => intro m p hm; simp at hm
  | cons q rest ih =>
    intro m p hm hp
    unfold lastIdx at h
    cases hr : lastIdx rest k with
    | some j' =>
      rw [hr] at h
      simp only [Option.map_some', Option.some.injEq] at h
      subst h
      match m with
      | 0 => omega
      | Nat.succ m' =>
        have := ih j' hr m' p (by simpa using hm) hp
        omega
    | none =>
      rw [hr] at h
      match m with
      | 0 => omega
      | Nat.succ m' =>
        exfalso
        have := lastIdx_complete rest k m' p (by simpa using hm) hp
        rw [hr] at this
        simp at this

theorem lastIdx_eq_last (l : List ConfigItem) (k : String) (j : Nat) (p : ConfigItem)
    (hj : l.get? j = some p) (hp : sectionRewriteOf p = some k)
    (hlast : ∀ m q, l.get? m = some q → sectionRewriteOf q = some k → m ≤ j) :
    lastIdx l k = some j := by
  have hsome := lastIdx_complete l k j p hj hp
  cases hli : lastIdx l k with
  | none => rw [hli] at hsome; simp at hsome
  | some j' =>
    obtain ⟨q, hq, hqs⟩ := lastIdx_at l k j' hli
    have h1 : j' ≤ j := hlast j' q hq hqs
    have h2 : j ≤ j' := lastIdx_max l k j' hli j p hj hp
    have : j' = j := by omega
    rw [this]

/-- Distinct recorded names are recorded at distinct indices: every
recorded index is the position of an item carrying exactly that
rewritten name. -/
theorem processItems_distinct_values (params : List ConfigItem) (k1 k2 : String) (j : Nat)
    (h1 : getAssoc (processItems params).2 k1 = some j)
    (h2 : getAssoc (processItems params).2 k2 = some j) : k1 = k2 := by
  rw [getAssoc_processItems] at h1 h2
  obtain ⟨p1, hp1, hs1⟩ := lastIdx_at params k1 j h1
  obtain ⟨p2, hp2, hs2⟩ := lastIdx_at params k2 j h2
  rw [hp1] at hp2
  simp only [Option.some.injEq] at hp2
  subst hp2
  rw [hs1] at hs2
  simp only [Option.some.injEq] at hs2
  exact hs2

theorem processItems_index_bound (params : List ConfigItem) (k : String) (j : Nat)
    (h : getAssoc (processItems params).2 k = some j) : j < params.length := by
  rw [getAssoc_processItems] at h
  exact lastIdx_bound params k j h

theorem processItems_index_section (params : List ConfigItem) (k : String) (j : Nat)
    (h : getAssoc (processItems params).2 k = some j) :
    ((processItems params).1.get? j).bind ConfigItem.sectionName = some k := by
  rw [getAssoc_processItems] at h
  obtain ⟨p, hp, hs⟩ := lastIdx_at params k j h
  have hfst : (processItems params).1 = params.map rewriteItem := processItemsGo_fst [] 0 params
  rw [hfst, List.get?_eq_getElem?, List.getElem?_map, ← List.get?_eq_getElem?, hp]
  simp only [Option.map_some', Option.some_bind]
  rw [rewriteItem_of_sectionRewriteOf, hs]

/-! ### Pipeline-stage lemmas -/

theorem stringNormalize_length (env : Env) (idxs : List (String × Nat)) (res : List Val) :
    (stringNormalize env idxs res).length = res.length := by
  induction idxs generalizing res with
  | nil => rfl
  | cons p rest ih =>
    unfold stringNormalize
    match env.get (strDrop p.1 "zig.zls.".length) with
    | some (Val.vstr s) =>
      by_cases he : s = ""
      · simp [he, ih]
      · simp [he, ih, List.length_set]
    | some Val.vnull => exact ih res
    | some (Val.vbool _) => exact ih res
    | some (Val.vint _) => exact ih res
    | none => exact ih res

theorem stringNormalize_untouched (env : Env) (idxs : List (String × Nat)) (res : List Val)
    (i : Nat) (h : ∀ p ∈ idxs, p.2 ≠ i) :
    (stringNormalize env idxs res).get? i = res.get? i := by
  induction idxs generalizing res with
  | nil => rfl
  | cons p rest ih =>
    have hp : p.2 ≠ i := h p (by simp)
    have hrest : ∀ q ∈ rest, q.2 ≠ i := fun q hq => h q (by simp [hq])
    unfold stringNormalize
    match env.get (strDrop p.1 "zig.zls.".length) with
    | some (Val.vstr s) =>
      by_cases he : s = ""
      · simp only [he]
        simp only [if_true, if_pos]
        exact ih res hrest
      · simp only [he, if_false, if_neg, not_false_iff]
        rw [ih _ hrest, List.get?_set_ne _ _ hp]
    | some Val.vnull => exact ih res hrest
    | some (Val.vbool _) => exact ih res hrest
    | some (Val.vint _) => exact ih res hrest
    | none => exact ih res hrest

theorem injectZigPath_length (env : Env) (idxs : List (String × Nat)) (res : List Val) :
    (injectZigPath env idxs res).length = res.length := by
  unfold injectZigPath
  match getAssoc idxs "zig.path" with
  | none => rfl
  | some idx =>
    match env.zigPath with
    | Except.ok _ => exact List.length_set ..
    | Except.error _ => exact List.length_set ..

theorem injectZigPath_untouched (env : Env) (idxs : List (String × Nat)) (res : List Val)
    (i : Nat) (h : ∀ j, getAssoc idxs "zig.path" = some j → j ≠ i) :
    (injectZigPath env idxs res).get? i = res.get? i := by
  unfold injectZigPath
  match hz : getAssoc idxs "zig.path" with
  | none => rfl
  | some idx =>
    have hne : idx ≠ i := h idx hz
    match env.zigPath with
    | Except.ok _ => exact List.get?_set_ne _ _ hne
    | Except.error _ => exact List.get?_set_ne _ _ hne

theorem applyEntry_snd (env : Env) (idxs : List (String × Nat)) (k : String) (v : Val)
    (res : List Val) : (applyEntry env idxs k v res).2 = entryEffects env k v := by
  unfold applyEntry entryEffects
  by_cases hc : (env.inspectDefault (strDrop k "zig.zls.".length)).isSome
  · rw [if_pos hc, if_pos hc]
    cases env.prompt k <;> rfl
  · rw [if_neg hc, if_neg hc]

theorem applySlot_length (idxs : List (String × Nat)) (k : String) (v : Val)
    (res : List Val) : (applySlot idxs k v res).length = res.length := by
  unfold applySlot
  match getAssoc idxs k with
  | none => rfl
  | some idx =>
    by_cases h0 : idx = 0
    · simp [h0]
    · simp [h0, List.length_set]

theorem applyEntry_fst_length (env : Env) (idxs : List (String × Nat)) (k : String)
    (v : Val) (res : List Val) : (applyEntry env idxs k v res).1.length = res.length := by
  unfold applyEntry
  by_cases hc : (env.inspectDefault (strDrop k "zig.zls.".length)).isSome
  · rw [if_pos hc]
    cases env.prompt k <;> simp [applySlot_length]
  · rw [if_neg hc]
    exact applySlot_length ..

theorem applyEntry_fst_untouched (env : Env) (idxs : List (String × Nat)) (k : String)
    (v : Val) (res : List Val) (i : Nat)
    (h : entryWrites env k → ∀ j, getAssoc idxs k = some j → j ≠ i) :
    (applyEntry env idxs k v res).1.get? i = res.get? i := by
  have hslot : (entryWrites env k) → (applySlot idxs k v res).get? i = res.get? i := by
    intro hw
    unfold applySlot
    match hz : getAssoc idxs k with
    | none => rfl
    | some idx =>
      by_cases h0 : idx = 0
      · simp [h0]
      · have hset := List.get?_set_ne v res (h hw idx hz)
        simpa [h0] using hset
  unfold applyEntry
  by_cases hc : (env.inspectDefault (strDrop k "zig.zls.".length)).isSome
  · rw [if_pos hc]
    match hp : env.prompt k with
    | PromptResponse.useInstead =>
      exact hslot (Or.inr hp)
    | PromptResponse.showSettings => rfl
    | PromptResponse.dismissed => rfl
  · rw [if_neg hc]
    exact hslot (Or.inl (by simp [conflictOf, hc]))

theorem applyAdditionalOptions_fst_length (env : Env) (idxs : List (String × Nat))
    (entries : List (String × Val)) (res : List Val) :
    (applyAdditionalOptions env idxs entries res).1.length = res.length := by
  induction entries generalizing res with
  | nil => rfl
  | cons e rest ih =>
    unfold applyAdditionalOptions
    rw [ih, applyEntry_fst_length]

theorem applyAdditionalOptions_fst_untouched (env : Env) (idxs : List (String × Nat))
    (entries : List (String × Val)) (res : List Val) (i : Nat)
    (h : ∀ e ∈ entries, entryWrites env e.1 → ∀ j, getAssoc idxs e.1 = some j → j ≠ i) :
    (applyAdditionalOptions env idxs entries res).1.get? i = res.get? i := by
  induction entries generalizing res with
  | nil => rfl
  | cons e rest ih =>
    unfold applyAdditionalOptions
    rw [ih _ (fun q hq => h q (by simp [hq])),
      applyEntry_fst_untouched env idxs e.1 e.2 res i (h e (by simp))]

theorem applyAdditionalOptions_snd (env : Env) (idxs : List (String × Nat))
    (entries : List (String × Val)) (res : List Val) :
    (applyAdditionalOptions env idxs entries res).2 =
      entries.foldr (fun e acc => entryEffects env e.1 e.2 ++ acc) [] := by
  induction entries generalizing res with
  | nil => rfl
  | cons e rest ih =>
    unfold applyAdditionalOptions
    simp only [applyEntry_snd, List.foldr_cons, ih]

theorem entryEffects_countP (env : Env) (k : String) (v : Val) :
    (entryEffects env k v).countP isWarnPromptB = if conflictOf env k then 1 else 0 := by
  unfold entryEffects conflictOf
  by_cases hc : (env.inspectDefault (strDrop k "zig.zls.".length)).isSome
  · rw [if_pos hc, if_pos hc]
    cases env.prompt k <;> simp [List.countP_cons, isWarnPromptB]
  · rw [if_neg hc, if_neg hc]
    rfl

theorem entryEffects_mem_prompt (env : Env) (k : String) (v : Val)
    (hc : conflictOf env k = true) : Effect.warnPrompt k ∈ entryEffects env k v := by
  unfold entryEffects
  unfold conflictOf at hc
  rw [if_pos hc]
  cases env.prompt k <;> simp

theorem entryEffects_nil_of_no_conflict (env : Env) (k : String) (v : Val)
    (hc : conflictOf env k = false) : entryEffects env k v = [] := by
  unfold entryEffects
  unfold conflictOf at hc
  simp [hc]

theorem effectsFoldr_countP (env : Env) (entries : List (String × Val)) :
    (entries.foldr (fun e acc => entryEffects env e.1 e.2 ++ acc) []).countP isWarnPromptB =
      entries.countP (fun e => conflictOf env e.1) := by
  induction entries with
  | nil => rfl
  | cons e rest ih =>
    simp only [List.foldr_cons, List.countP_append, List.countP_cons, ih,
      entryEffects_countP]
    by_cases hc : conflictOf env e.1
    · simp [hc]
      omega
    · simp [hc]

theorem effectsFoldr_mem (env : Env) (entries : List (String × Val)) (k : String)
    (v : Val) (hm : (k, v) ∈ entries) (hc : conflictOf env k = true) :
    Effect.warnPrompt k ∈
      entries.foldr (fun e acc => entryEffects env e.1 e.2 ++ acc) [] := by
  induction entries with
  | nil => simp at hm
  | cons e rest ih =>
    rcases List.mem_cons.mp hm with he | hm'
    · subst he
      exact List.mem_append_left _ (entryEffects_mem_prompt env k v hc)
    · exact List.mem_append_right _ (ih hm')

theorem effectsFoldr_nil (env : Env) (entries : List (String × Val))
    (h : ∀ e ∈ entries, conflictOf env e.1 = false) :
    entries.foldr (fun e acc => entryEffects env e.1 e.2 ++ acc) [] = [] := by
  induction entries with
  | nil => rfl
  | cons e rest ih =>
    simp only [List.foldr_cons,
      entryEffects_nil_of_no_conflict env e.1 e.2 (h e (by simp)), List.nil_append]
    exact ih (fun q hq => h q (by simp [hq]))

theorem setAssoc_map_fst {α : Type} (m : List (String × α)) (k : String) (v : α) :
    (setAssoc m k v).map Prod.fst =
      if k ∈ m.map Prod.fst then m.map Prod.fst else m.map Prod.fst ++ [k] := by
  induction m with
  | nil => simp [setAssoc]
  | cons p rest ih =>
    by_cases hpk : p.1 = k
    · simp [setAssoc, hpk]
    · have hkp : ¬ k = p.1 := fun h => hpk h.symm
      simp only [setAssoc, if_neg hpk, List.map_cons, ih]
      by_cases hk : k ∈ rest.map Prod.fst
      · simp [hk, hkp]
      · simp [hk, hkp]

theorem setAssoc_keys_nodup {α : Type} (m : List (String × α)) (k : String) (v : α)
    (h : (m.map Prod.fst).Nodup) : ((setAssoc m k v).map Prod.fst).Nodup := by
  rw [setAssoc_map_fst]
  by_cases hk : k ∈ m.map Prod.fst
  · simpa [hk] using h
  · simp only [if_neg hk]
    simp [List.nodup_append, h, hk]

theorem processItemsGo_keys_nodup (idxs : List (String × Nat)) (i : Nat)
    (l : List ConfigItem) (h : (idxs.map Prod.fst).Nodup) :
    (((processItemsGo idxs i l).2).map Prod.fst).Nodup := by
  induction l generalizing idxs i with
  | nil => exact h
  | cons p rest ih =>
    rw [processItemsGo_cons]
    cases sectionRewriteOf p with
    | none => exact ih idxs (i + 1) h
    | some s' => exact ih (setAssoc idxs s' i) (i + 1) (setAssoc_keys_nodup idxs s' i h)

theorem getAssoc_of_mem_nodup {α : Type} (m : List (String × α)) (p : String × α)
    (h : (m.map Prod.fst).Nodup) (hp : p ∈ m) : getAssoc m p.1 = some p.2 := by
  induction m with
  | nil => simp at hp
  | cons q rest ih =>
    rcases List.mem_cons.mp hp with he | hp'
    · subst he
      simp [getAssoc]
    · have hnotin : q.1 ∉ rest.map Prod.fst := (List.nodup_cons.mp (by simpa using h)).1
      have hmem : p.1 ∈ rest.map Prod.fst := List.mem_map_of_mem Prod.fst hp'
      have hq : ¬ q.1 = p.1 := fun he => hnotin (he ▸ hmem)
      simp only [getAssoc, if_neg hq]
      exact ih (List.nodup_cons.mp (by simpa using h)).2 hp'

theorem configurationMiddleware_ok (env : Env) (params : List ConfigItem)
    (next : List ConfigItem → Except ResponseErr (List Val)) (res : List Val)
    (hnext : next (processItems params).1 = Except.ok res) :
    configurationMiddleware env params next =
      (Except.ok (applyAdditionalOptions env (processItems params).2 env.additionalOptions
          (injectZigPath env (processItems params).2
            (stringNormalize env (processItems params).2 res))).1,
       (applyAdditionalOptions env (processItems params).2 env.additionalOptions
          (injectZigPath env (processItems params).2
            (stringNormalize env (processItems params).2 res))).2) := by
  simp only [configurationMiddleware]
  rw [hnext]

theorem getAssoc_eq_none {α : Type} (m : List (String × α)) (k : String)
    (h : k ∉ m.map Prod.fst) : getAssoc m k = none := by
  induction m with
  | nil => rfl
  | cons p rest ih =>
    have hpk : ¬ p.1 = k := fun he => h (by simp [he])
    simp only [getAssoc, if_neg hpk]
    exact ih (fun hm => h (by simp [hm]))

theorem stringNormalize_at (env : Env) (idxs : List (String × Nat)) (res : List Val)
    (n : String) (j : Nat) (s : String)
    (hnodup : (idxs.map Prod.fst).Nodup)
    (hDV : ∀ k1 k2 j', getAssoc idxs k1 = some j' → getAssoc idxs k2 = some j' → k1 = k2)
    (hm : getAssoc idxs n = some j) (hj : j < res.length)
    (hget : env.get (strDrop n "zig.zls.".length) = some (Val.vstr s)) (hs : s ≠ "") :
    (stringNormalize env idxs res).get? j = some (Val.vstr (env.handleConfigOption s)) := by
  revert hnodup hDV hm hj
  induction idxs generalizing res with
  | nil =>
    intro _ _ hm _
    simp [getAssoc] at hm
  | cons p rest ih =>
    intro hnodup hDV hm hj
    have hpnotin : p.1 ∉ rest.map Prod.fst := (List.nodup_cons.mp (by simpa using hnodup)).1
    have hrestnodup : (rest.map Prod.fst).Nodup := (List.nodup_cons.mp (by simpa using hnodup)).2
    by_cases hpn : p.1 = n
    · have hpj : p.2 = j := by
        have hhead : getAssoc (p :: rest) n = some p.2 := by simp [getAssoc, hpn]
        rw [hm] at hhead
        exact (Option.some.inj hhead).symm
      have hgetp : env.get (strDrop p.1 "zig.zls.".length) = some (Val.vstr s) := by
        rw [hpn]; exact hget
      have huntouched : ∀ q ∈ rest, q.2 ≠ j := by
        intro q hq hqj
        have h1 : getAssoc (p :: rest) q.1 = some j :=
          hqj ▸ getAssoc_of_mem_nodup (p :: rest) q hnodup (by simp [hq])
        have h2 : q.1 = n := hDV q.1 n j h1 hm
        have h3 : q.1 ∈ rest.map Prod.fst := List.mem_map_of_mem Prod.fst hq
        rw [h2, ← hpn] at h3
        exact hpnotin h3
      unfold stringNormalize
      simp only [hgetp, if_neg hs]
      rw [stringNormalize_untouched env rest _ j huntouched, hpj]
      exact List.get?_set_eq_of_lt _ hj
    · have hgr : getAssoc rest n = some j := by
        have := hm
        simp only [getAssoc, if_neg hpn] at this
        exact this
      have hDVrest : ∀ k1 k2 j', getAssoc rest k1 = some j' →
          getAssoc rest k2 = some j' → k1 = k2 := by
        intro k1 k2 j' h1 h2
        have hlift : ∀ k, getAssoc rest k = some j' → getAssoc (p :: rest) k = some j' := by
          intro k hk
          have hpk : ¬ p.1 = k := by
            intro he
            rw [← he, getAssoc_eq_none rest p.1 hpnotin] at hk
            exact Option.noConfusion hk
          simp [getAssoc, hpk, hk]
        exact hDV k1 k2 j' (hlift k1 h1) (hlift k2 h2)
      cases hg : env.get (strDrop p.1 "zig.zls.".length) with
      | none =>
        unfold stringNormalize
        simp only [hg]
        exact ih res hrestnodup hDVrest hgr hj
      | some v =>
        cases v with
        | vstr s' =>
          by_cases hse' : s' = ""
          · unfold stringNormalize
            simp only [hg, if_pos hse']
            exact ih res hrestnodup hDVrest hgr hj
          · unfold stringNormalize
            simp only [hg, if_neg hse']
            exact ih _ hrestnodup hDVrest hgr (by rw [List.length_set]; exact hj)
        | vnull =>
          unfold stringNormalize
          simp only [hg]
          exact ih res hrestnodup hDVrest hgr hj
        | vbool b =>
          unfold stringNormalize
          simp only [hg]
          exact ih res hrestnodup hDVrest hgr hj
        | vint m =>
          unfold stringNormalize
          simp only [hg]
          exact ih res hrestnodup hDVrest hgr hj

theorem injectZigPath_at (env : Env) (idxs : List (String × Nat)) (res : List Val)
    (idx : Nat) (hz : getAssoc idxs "zig.path" = some idx) (hidx : idx < res.length) :
    (injectZigPath env idxs res).get? idx =
      some (match env.zigPath with
            | Except.ok p => Val.vstr p
            | Except.error _ => Val.vnull) := by
  unfold injectZigPath
  simp only [hz]
  cases env.zigPath with
  | ok p => exact List.get?_set_eq_of_lt _ hidx
  | error e => exact List.get?_set_eq_of_lt _ hidx

/-! ### Claim theorems -/

/-- C8: section-name rewriting in the bridge — a request item whose
section is the hard-coded legacy alias `zls.zig_exe_path` is rewritten to
`zig.path`, and every other section is rewritten to the fixed namespace
`zig.zls.` followed by the camel-cased form of the section with its first
four characters removed. -/
theorem c8_section_rewriting (params : List ConfigItem) (i : Nat) (p : ConfigItem)
    (s : String) (hp : params.get? i = some p) (hs : p.sectionName = some s)
    (hne : s ≠ "") :
    (processItems params).1.get? i =
      some (ConfigItem.mk
        (some (if s = "zls.zig_exe_path" then "zig.path"
               else "zig.zls." ++ camelCase (strDrop s 4)))
        p.scopeUri) := by
  have hfst : (processItems params).1 = params.map rewriteItem := processItemsGo_fst [] 0 params
  rw [hfst, List.get?_eq_getElem?, List.getElem?_map, ← List.get?_eq_getElem?, hp]
  simp only [Option.map_some']
  rw [rewriteItem_of_sectionRewriteOf]
  simp [sectionRewriteOf, hs, hne, rewriteSection]

/-- Witness for C8 at a concrete snake_case section. -/
theorem c8_section_rewriting_witness :
    (processItems [ConfigItem.mk (some "zls.enable_snippets") none]).1.get? 0 =
      some (ConfigItem.mk (some "zig.zls.enableSnippets") none) := by
  have h := c8_section_rewriting [ConfigItem.mk (some "zls.enable_snippets") none] 0
    (ConfigItem.mk (some "zls.enable_snippets") none) "zls.enable_snippets" rfl rfl
    (by decide)
  rw [h]
  decide

/-- C1: for an exchange whose continuation answers the rewritten request
without a protocol error (and, as the protocol guarantees, with one value
per request item), the bridge's response has exactly the request's length;
every recorded index is below that length and is the position of the
request item carrying that rewritten section, and every slot with no
recorded section keeps the continuation's value unchanged. -/
theorem c1_response_mirrors_request (env : Env) (params : List ConfigItem)
    (next : List ConfigItem → Except ResponseErr (List Val)) (res : List Val)
    (hnext : next (processItems params).1 = Except.ok res)
    (hlen : res.length = params.length) :
    ∃ out, (configurationMiddleware env params next).1 = Except.ok out ∧
      out.length = params.length ∧
      (∀ k j, getAssoc (processItems params).2 k = some j →
        j < params.length ∧
        ((processItems params).1.get? j).bind ConfigItem.sectionName = some k) ∧
      (∀ i, (∀ k, getAssoc (processItems params).2 k ≠ some i) →
        out.get? i = res.get? i) := by
  rw [configurationMiddleware_ok env params next res hnext]
  refine ⟨_, rfl, ?_, ?_, ?_⟩
  · rw [applyAdditionalOptions_fst_length, injectZigPath_length, stringNormalize_length,
      hlen]
  · intro k j hj
    exact ⟨processItems_index_bound params k j hj, processItems_index_section params k j hj⟩
  · intro i hi
    have hnodup : (((processItems params).2).map Prod.fst).Nodup :=
      processItemsGo_keys_nodup [] 0 params (by simp)
    rw [applyAdditionalOptions_fst_untouched env _ _ _ i
        (fun e _ _ j hj hji => (hi e.1) (hji ▸ hj)),
      injectZigPath_untouched env _ _ i (fun j hj hji => (hi "zig.path") (hji ▸ hj)),
      stringNormalize_untouched env _ _ i
        (fun p hp hpi => (hi p.1) (hpi ▸ getAssoc_of_mem_nodup _ p hnodup hp))]

/-- Bridge environment with no settings resolved, no additional options,
failing compiler-path discovery and a dismissing user. -/
def envTrivial : Env :=
  { get := fun _ => none
    inspectDefault := fun _ => none
    additionalOptions := []
    handleConfigOption := fun s => s
    zigPath := Except.error ()
    prompt := fun _ => PromptResponse.dismissed }

/-- Request and continuation used by the C1 witness. -/
def paramsC1 : List ConfigItem :=
  [ConfigItem.mk (some "zls.warn_style") none, ConfigItem.mk none none]

def nextC1 : List ConfigItem → Except ResponseErr (List Val) :=
  fun _ => Except.ok [Val.vnull, Val.vbool true]

/-- Witness for C1 at a concrete two-item exchange. -/
theorem c1_response_mirrors_request_witness :
    ∃ out, (configurationMiddleware envTrivial paramsC1 nextC1).1 = Except.ok out ∧
      out.length = paramsC1.length ∧
      (∀ k j, getAssoc (processItems paramsC1).2 k = some j →
        j < paramsC1.length ∧
        ((processItems paramsC1).1.get? j).bind ConfigItem.sectionName = some k) ∧
      (∀ i, (∀ k, getAssoc (processItems paramsC1).2 k ≠ some i) →
        out.get? i = [Val.vnull, Val.vbool true].get? i) :=
  c1_response_mirrors_request envTrivial paramsC1 nextC1 [Val.vnull, Val.vbool true]
    rfl (by decide)

/-- C10: when two request items rewrite to the same section name, the
index map records only the last occurrence; the earlier duplicate's slot
keeps exactly the continuation's value, while (when the editor resolves
the section to a non-empty string, the section is not the compiler-path
alias and no additional options are configured) the recorded last slot
receives the bridge's normalized value. -/
theorem c10_duplicate_sections (env : Env) (params : List ConfigItem)
    (next : List ConfigItem → Except ResponseErr (List Val)) (res : List Val)
    (i j : Nat) (qi qj : ConfigItem) (si sj n : String)
    (hnext : next (processItems params).1 = Except.ok res)
    (hlen : res.length = params.length)
    (hqi : params.get? i = some qi) (hsi : qi.sectionName = some si) (hsie : si ≠ "")
    (hqj : params.get? j = some qj) (hsj : qj.sectionName = some sj) (hsje : sj ≠ "")
    (hri : rewriteSection si = n) (hrj : rewriteSection sj = n)
    (hij : i < j)
    (hlast : ∀ m q t, params.get? m = some q → q.sectionName = some t → t ≠ "" →
      rewriteSection t = n → m ≤ j) :
    getAssoc (processItems params).2 n = some j ∧
    ∃ out, (configurationMiddleware env params next).1 = Except.ok out ∧
      out.get? i = res.get? i ∧
      (∀ s, n ≠ "zig.path" → env.get (strDrop n "zig.zls.".length) = some (Val.vstr s) →
        s ≠ "" → env.additionalOptions = [] →
        out.get? j = some (Val.vstr (env.handleConfigOption s))) := by
  have hsroj : sectionRewriteOf qj = some n := by simp [sectionRewriteOf, hsj, hsje, hrj]
  have hsroi : sectionRewriteOf qi = some n := by simp [sectionRewriteOf, hsi, hsie, hri]
  have hmax : ∀ m q, params.get? m = some q → sectionRewriteOf q = some n → m ≤ j := by
    intro m q hm hq
    cases hqs : q.sectionName with
    | none => simp [sectionRewriteOf, hqs] at hq
    | some t =>
      by_cases hte : t = ""
      · simp [sectionRewriteOf, hqs, hte] at hq
      · simp only [sectionRewriteOf, hqs] at hq
        rw [if_neg hte] at hq
        exact hlast m q t hm hqs hte (Option.some.inj hq)
  have hLI : lastIdx params n = some j := lastIdx_eq_last params n j qj hqj hsroj hmax
  have hga : getAssoc (processItems params).2 n = some j := by
    rw [getAssoc_processItems]; exact hLI
  refine ⟨hga, ?_⟩
  rw [configurationMiddleware_ok env params next res hnext]
  have hnodup : (((processItems params).2).map Prod.fst).Nodup :=
    processItemsGo_keys_nodup [] 0 params (by simp)
  have hnoi : ∀ k, getAssoc (processItems params).2 k ≠ some i := by
    intro k hk
    rw [getAssoc_processItems] at hk
    obtain ⟨q, hq, hqs⟩ := lastIdx_at params k i hk
    rw [hqi] at hq
    have hq' : qi = q := Option.some.inj hq
    rw [← hq', hsroi] at hqs
    have hkn : n = k := Option.some.inj hqs
    rw [← hkn, hLI] at hk
    have := Option.some.inj hk
    omega
  refine ⟨_, rfl, ?_, ?_⟩
  · rw [applyAdditionalOptions_fst_untouched env _ _ _ i
        (fun e _ _ j' hj' hji => (hnoi e.1) (hji ▸ hj')),
      injectZigPath_untouched env _ _ i (fun j' hj' hji => (hnoi "zig.path") (hji ▸ hj')),
      stringNormalize_untouched env _ _ i
        (fun p hp hpi => (hnoi p.1) (hpi ▸ getAssoc_of_mem_nodup _ p hnodup hp))]
  · intro s hnzp hget hse hao
    rw [hao]
    show (injectZigPath env (processItems params).2
      (stringNormalize env (processItems params).2 res)).get? j = _
    rw [injectZigPath_untouched env _ _ j (fun j' hj' hji => by
      subst hji
      exact hnzp (processItems_distinct_values params n "zig.path" j' hga hj'))]
    exact stringNormalize_at env (processItems params).2 res n j s hnodup
      (fun k1 k2 j' => processItems_distinct_values params k1 k2 j') hga
      (by rw [hlen]; exact processItems_index_bound params n j hga) hget hse

/-- Environment, request and continuation for the C10 witness: the same
section requested twice, resolving to a non-empty string setting. -/
def envC10 : Env :=
  { get := fun sec => if sec = "foo" then some (Val.vstr "~/zls.json") else none
    inspectDefault := fun _ => none
    additionalOptions := []
    handleConfigOption := fun s => s ++ "#resolved"
    zigPath := Except.error ()
    prompt := fun _ => PromptResponse.dismissed }

def paramsC10 : List ConfigItem :=
  [ConfigItem.mk (some "zls.foo") none, ConfigItem.mk (some "zls.foo") none]

def nextC10 : List ConfigItem → Except ResponseErr (List Val) :=
  fun _ => Except.ok [Val.vint 7, Val.vint 8]

/-- Witness for C10 at a concrete duplicated request. -/
theorem c10_duplicate_sections_witness :
    getAssoc (processItems paramsC10).2 "zig.zls.foo" = some 1 ∧
    ∃ out, (configurationMiddleware envC10 paramsC10 nextC10).1 = Except.ok out ∧
      out.get? 0 = [Val.vint 7, Val.vint 8].get? 0 ∧
      (∀ s, "zig.zls.foo" ≠ "zig.path" →
        envC10.get (strDrop "zig.zls.foo" "zig.zls.".length) = some (Val.vstr s) →
        s ≠ "" → envC10.additionalOptions = [] →
        out.get? 1 = some (Val.vstr (envC10.handleConfigOption s))) :=
  c10_duplicate_sections envC10 paramsC10 nextC10 [Val.vint 7, Val.vint 8] 0 1
    (ConfigItem.mk (some "zls.foo") none) (ConfigItem.mk (some "zls.foo") none)
    "zls.foo" "zls.foo" "zig.zls.foo" rfl (by decide) rfl rfl (by decide) rfl rfl
    (by decide) (by decide) (by decide) (by decide)
    (by
      intro m q t hm _ _ _
      match m with
      | 0 => omega
      | 1 => omega
      | Nat.succ (Nat.succ m') => simp [paramsC10] at hm)

/-- C5: every `additionalOptions` entry colliding with a statically-known
setting (a defined default) triggers the conflict prompt, with exactly one
prompt per conflicting entry; no prompt and no settings-store write occurs
when no entry conflicts; and unless the user chooses the migrate option,
the colliding section's response slot keeps the value resolved from the
static setting — the map's value is never applied silently. -/
theorem c5_conflict_handling (env : Env) (params : List ConfigItem)
    (next : List ConfigItem → Except ResponseErr (List Val)) (res : List Val)
    (hnext : next (processItems params).1 = Except.ok res) :
    ((configurationMiddleware env params next).2.countP isWarnPromptB =
      env.additionalOptions.countP (fun e => conflictOf env e.1)) ∧
    (∀ k v, (k, v) ∈ env.additionalOptions → conflictOf env k = true →
      Effect.warnPrompt k ∈ (configurationMiddleware env params next).2) ∧
    ((∀ e ∈ env.additionalOptions, conflictOf env e.1 = false) →
      (configurationMiddleware env params next).2 = []) ∧
    (∀ k v j, (k, v) ∈ env.additionalOptions → conflictOf env k = true →
      env.prompt k ≠ PromptResponse.useInstead →
      getAssoc (processItems params).2 k = some j →
      ∃ out, (configurationMiddleware env params next).1 = Except.ok out ∧
        out.get? j =
          (injectZigPath env (processItems params).2
            (stringNormalize env (processItems params).2 res)).get? j) := by
  rw [configurationMiddleware_ok env params next res hnext]
  refine ⟨?_, ?_, ?_, ?_⟩
  · show (applyAdditionalOptions env (processItems params).2 env.additionalOptions _).2.countP
      isWarnPromptB = _
    rw [applyAdditionalOptions_snd]
    exact effectsFoldr_countP env env.additionalOptions
  · intro k v hm hc
    show Effect.warnPrompt k ∈
      (applyAdditionalOptions env (processItems params).2 env.additionalOptions _).2
    rw [applyAdditionalOptions_snd]
    exact effectsFoldr_mem env _ k v hm hc
  · intro h
    show (applyAdditionalOptions env (processItems params).2 env.additionalOptions _).2 = []
    rw [applyAdditionalOptions_snd]
    exact effectsFoldr_nil env _ h
  · intro k v j hm hc hp hj
    refine ⟨_, rfl, ?_⟩
    apply applyAdditionalOptions_fst_untouched
    intro e he hw j' hj' hj'j
    subst hj'j
    have hek : e.1 = k := processItems_distinct_values params e.1 k j' hj' hj
    rw [hek] at hw
    cases hw with
    | inl h1 => rw [hc] at h1; exact Bool.noConfusion h1
    | inr h2 => exact hp h2

/-- Environment, request and continuation for the C5 witness: one
conflicting additional option, prompt dismissed. -/
def envC5 : Env :=
  { get := fun _ => none
    inspectDefault := fun sec =>
      if sec = "semanticTokens" then some (Val.vstr "partial") else none
    additionalOptions := [("zig.zls.semanticTokens", Val.vbool false)]
    handleConfigOption := fun s => s
    zigPath := Except.error ()
    prompt := fun _ => PromptResponse.dismissed }

def paramsC5 : List ConfigItem :=
  [ConfigItem.mk (some "zls.semantic_tokens") none]

def nextC5 : List ConfigItem → Except ResponseErr (List Val) :=
  fun _ => Except.ok [Val.vstr "full"]

/-- Witness for C5 at a concrete conflicting exchange. -/
theorem c5_conflict_handling_witness :
    ((configurationMiddleware envC5 paramsC5 nextC5).2.countP isWarnPromptB =
      envC5.additionalOptions.countP (fun e => conflictOf envC5 e.1)) ∧
    (∀ k v, (k, v) ∈ envC5.additionalOptions → conflictOf envC5 k = true →
      Effect.warnPrompt k ∈ (configurationMiddleware envC5 paramsC5 nextC5).2) ∧
    ((∀ e ∈ envC5.additionalOptions, conflictOf envC5 e.1 = false) →
      (configurationMiddleware envC5 paramsC5 nextC5).2 = []) ∧
    (∀ k v j, (k, v) ∈ envC5.additionalOptions → conflictOf envC5 k = true →
      envC5.prompt k ≠ PromptResponse.useInstead →
      getAssoc (processItems paramsC5).2 k = some j →
      ∃ out, (configurationMiddleware envC5 paramsC5 nextC5).1 = Except.ok out ∧
        out.get? j =
          (injectZigPath envC5 (processItems paramsC5).2
            (stringNormalize envC5 (processItems paramsC5).2 [Val.vstr "full"])).get? j) :=
  c5_conflict_handling envC5 paramsC5 nextC5 [Val.vstr "full"] rfl

/-- Additional-options map carrying a `zig.path` key, used by the C7
counterexample. -/
def envC7 : Env :=
  { get := fun _ => none
    inspectDefault := fun _ => none
    additionalOptions := [("zig.path", Val.vstr "/tmp/evil")]
    handleConfigOption := fun s => s
    zigPath := Except.ok "/usr/bin/zig"
    prompt := fun _ => PromptResponse.dismissed }

def paramsC7 : List ConfigItem :=
  [ConfigItem.mk (some "zls.enable_snippets") none,
   ConfigItem.mk (some "zls.zig_exe_path") none]

def nextC7 : List ConfigItem → Except ResponseErr (List Val) :=
  fun _ => Except.ok [Val.vnull, Val.vnull]

/-- C7 counterexample: the legacy alias is present at index 1 and
compiler-path discovery succeeds with `/usr/bin/zig`, but because
`additionalOptions` carries a `zig.path` entry, the final value of that
response slot is the map's value, not the discovered path. -/
theorem c7_counterexample :
    envC7.zigPath = Except.ok "/usr/bin/zig" ∧
    getAssoc (processItems paramsC7).2 "zig.path" = some 1 ∧
    (configurationMiddleware envC7 paramsC7 nextC7).1 =
      Except.ok [Val.vnull, Val.vstr "/tmp/evil"] ∧
    Val.vstr "/tmp/evil" ≠ Val.vstr "/usr/bin/zig" := by
  refine ⟨rfl, by decide, by rfl, by decide⟩

/-- C7 (amended): when the legacy alias is recorded in the exchange and
`additionalOptions` has no `zig.path` entry, the response slot at the
recorded index equals the discovered compiler path on success and null on
discovery failure, and the bridge returns a response instead of raising. -/
theorem c7_zig_path_injection (env : Env) (params : List ConfigItem)
    (next : List ConfigItem → Except ResponseErr (List Val)) (res : List Val)
    (idx : Nat)
    (hnext : next (processItems params).1 = Except.ok res)
    (hlen : res.length = params.length)
    (hidx : getAssoc (processItems params).2 "zig.path" = some idx)
    (hao : ∀ v, ("zig.path", v) ∉ env.additionalOptions) :
    ∃ out, (configurationMiddleware env params next).1 = Except.ok out ∧
      (∀ p, env.zigPath = Except.ok p → out.get? idx = some (Val.vstr p)) ∧
      (∀ e, env.zigPath = Except.error e → out.get? idx = some Val.vnull) := by
  rw [configurationMiddleware_ok env params next res hnext]
  have hb : idx < (stringNormalize env (processItems params).2 res).length := by
    rw [stringNormalize_length, hlen]
    exact processItems_index_bound params _ idx hidx
  have huntouched : ∀ e ∈ env.additionalOptions, entryWrites env e.1 →
      ∀ j, getAssoc (processItems params).2 e.1 = some j → j ≠ idx := by
    intro e he _ j hj hji
    subst hji
    have hek : e.1 = "zig.path" :=
      processItems_distinct_values params e.1 "zig.path" j hj hidx
    apply hao e.2
    have he2 : (e.1, e.2) ∈ env.additionalOptions := by simpa using he
    rw [hek] at he2
    exact he2
  refine ⟨_, rfl, ?_, ?_⟩
  · intro p hp
    rw [applyAdditionalOptions_fst_untouched env _ _ _ idx huntouched,
      injectZigPath_at env (processItems params).2 _ idx hidx hb, hp]
  · intro e he
    rw [applyAdditionalOptions_fst_untouched env _ _ _ idx huntouched,
      injectZigPath_at env (processItems params).2 _ idx hidx hb, he]

/-- Environment for the C7 witness: discovery succeeds, no additional
options, alias at index 0 (the injection uses a proper undefined check, so
index 0 works here). -/
def envC7W : Env :=
  { get := fun _ => none
    inspectDefault := fun _ => none
    additionalOptions := []
    handleConfigOption := fun s => s
    zigPath := Except.ok "/usr/bin/zig"
    prompt := fun _ => PromptResponse.dismissed }

def paramsC7W : List ConfigItem := [ConfigItem.mk (some "zls.zig_exe_path") none]

def nextC7W : List ConfigItem → Except ResponseErr (List Val) :=
  fun _ => Except.ok [Val.vnull]

/-- Witness for the amended C7 at a concrete exchange. -/
theorem c7_zig_path_injection_witness :
    ∃ out, (configurationMiddleware envC7W paramsC7W nextC7W).1 = Except.ok out ∧
      (∀ p, envC7W.zigPath = Except.ok p → out.get? 0 = some (Val.vstr p)) ∧
      (∀ e, envC7W.zigPath = Except.error e → out.get? 0 = some Val.vnull) :=
  c7_zig_path_injection envC7W paramsC7W nextC7W [Val.vnull] 0 rfl (by decide)
    (by decide) (by intro v h; simp [envC7W] at h)

/-- Additional option requested by the server at index 0, used by the C2
failing input. -/
def envC2 : Env :=
  { get := fun _ => none
    inspectDefault := fun _ => none
    additionalOptions := [("zig.zls.foo", Val.vint 1)]
    handleConfigOption := fun s => s
    zigPath := Except.error ()
    prompt := fun _ => PromptResponse.dismissed }

def paramsC2 : List ConfigItem := [ConfigItem.mk (some "zls.foo") none]

def nextC2 : List ConfigItem → Except ResponseErr (List Val) :=
  fun _ => Except.ok [Val.vnull]

/-- C2 failing input (code bug): the entry `zig.zls.foo` does not conflict
with any statically-known setting and the server requested exactly that
section — recorded at index 0 of the exchange — yet the bridge leaves the
continuation's null in that slot, because `if (!optionIndex)` (zls.ts:223)
treats the recorded index 0 as "not requested" (0 is falsy), contradicting
the adjacent comment. The same entry at index 1 is applied. -/
theorem c2_index_zero_dropped :
    getAssoc (processItems paramsC2).2 "zig.zls.foo" = some 0 ∧
    conflictOf envC2 "zig.zls.foo" = false ∧
    getAssoc envC2.additionalOptions "zig.zls.foo" = some (Val.vint 1) ∧
    (configurationMiddleware envC2 paramsC2 nextC2).1 = Except.ok [Val.vnull] ∧
    (configurationMiddleware envC2
        [ConfigItem.mk none none, ConfigItem.mk (some "zls.foo") none]
        (fun _ => Except.ok [Val.vnull, Val.vnull])).1 =
      Except.ok [Val.vnull, Val.vint 1] := by
  refine ⟨by decide, by decide, by decide, by rfl, by rfl⟩

/-- C3: on a restart whose configuration allows a session and whose path
resolution succeeds, a successful `startClient` produces the event order
start-new-then-stop-old, leaves the handle on the new session, and every
intermediate live-session set is non-empty; a throwing `startClient`
leaves the old session completely untouched (no events, handle unchanged)
and surfaces a warning instead of propagating. -/
theorem c3_restart_ordering (env : RestartEnv) (c : Nat) (exe : String)
    (hgate : env.pathSet = true ∨ env.enabled = ZlsEnabled.on)
    (hloc : env.located = some exe) :
    (∀ s, env.startResult = Except.ok s →
      (restartClient env (some c)).events =
        [SessionEvent.start s, SessionEvent.stop c] ∧
      (restartClient env (some c)).client = some s ∧
      ∀ live ∈ liveSnapshots [c] (restartClient env (some c)).events, live ≠ []) ∧
    (∀ m, env.startResult = Except.error m →
      (restartClient env (some c)).events = [] ∧
      (restartClient env (some c)).client = some c ∧
      (restartClient env (some c)).warnings ≠ []) := by
  have hcond : ¬ (env.pathSet = false ∧ env.enabled ≠ ZlsEnabled.on) := by
    rcases hgate with h | h
    · intro hc
      rw [h] at hc
      exact Bool.noConfusion hc.1
    · intro hc
      exact hc.2 h
  constructor
  · intro s hs
    refine ⟨?_, ?_, ?_⟩
    · simp [restartClient, if_neg hcond, hloc, hs, stopEvents]
    · simp [restartClient, if_neg hcond, hloc, hs]
    · intro live hlive
      simp only [restartClient, if_neg hcond, hloc, hs, stopEvents] at hlive
      simp only [liveSnapshots, applyEvent, List.nil_append,
        List.erase_cons_head] at hlive
      simp only [List.mem_cons, List.mem_singleton, List.not_mem_nil] at hlive
      rcases hlive with rfl | rfl | rfl | hfalse
      · simp
      · simp
      · simp
      · simp at hfalse
  · intro m hm
    refine ⟨?_, ?_, ?_⟩
    · simp [restartClient, if_neg hcond, hloc, hm]
    · simp [restartClient, if_neg hcond, hloc, hm]
    · cases m <;> simp [restartClient, if_neg hcond, hloc, hm]

/-- Restart environment of the C3 witness: enabled, path resolved,
`startClient` succeeding with a fresh session. -/
def envC3 : RestartEnv :=
  { pathSet := false
    enabled := ZlsEnabled.on
    located := some "/opt/zls/zls"
    startResult := Except.ok 2 }

/-- Failing-start variant used in the C3 witness. -/
def envC3f : RestartEnv :=
  { envC3 with startResult := Except.error (some "spawn ENOENT") }

/-- Witness for C3: a concrete successful restart over live session 1 and
a concrete failing start. -/
theorem c3_restart_ordering_witness :
    ((restartClient envC3 (some 1)).events =
        [SessionEvent.start 2, SessionEvent.stop 1] ∧
      (restartClient envC3 (some 1)).client = some 2 ∧
      ∀ live ∈ liveSnapshots [1] (restartClient envC3 (some 1)).events, live ≠ []) ∧
    ((restartClient envC3f (some 1)).events = [] ∧
      (restartClient envC3f (some 1)).client = some 1 ∧
      (restartClient envC3f (some 1)).warnings ≠ []) :=
  ⟨(c3_restart_ordering envC3 1 "/opt/zls/zls" (Or.inr rfl) rfl).1 2 rfl,
   (c3_restart_ordering envC3f 1 "/opt/zls/zls" (Or.inr rfl) rfl).2
     (some "spawn ENOENT") rfl⟩

/-- C6: the version verifier inside `getZLSPath` — an unparseable
`--version` probe yields a null result and a surfaced error; an expected
version exists only on the auto-resolved path (never for a user override);
on the user-override path any parseable reported version is accepted; and
a reported version differing from the expected one yields a null result
and a surfaced mismatch error. -/
theorem c6_version_verifier (env : LocateEnv) :
    (∀ p ev, locateExe env = Except.ok (p, ev) → env.reported p = none →
      (getZLSPath env).1 = none ∧ (getZLSPath env).2 ≠ []) ∧
    (∀ p v, locateExe env = Except.ok (p, some v) → env.configPath = "") ∧
    (∀ w, env.configPath ≠ "" → env.reported env.configPath = some w →
      (getZLSPath env).1 = some (env.configPath, w)) ∧
    (∀ p v w, locateExe env = Except.ok (p, some v) → env.reported p = some w →
      SemVer.compare w v ≠ 0 →
      (getZLSPath env).1 = none ∧ (getZLSPath env).2 ≠ []) := by
  refine ⟨?_, ?_, ?_, ?_⟩
  · intro p ev hloc hrep
    simp [getZLSPath, hloc, hrep]
  · intro p v hloc
    by_contra hne
    simp only [locateExe, if_pos hne] at hloc
    simp at hloc
  · intro w hcp hrep
    have hloc : locateExe env = Except.ok (env.configPath, none) := by
      simp [locateExe, hcp]
    simp [getZLSPath, hloc, hrep]
  · intro p v w hloc hrep hcmp
    simp [getZLSPath, hloc, hrep, hcmp]

/-- Locate environment of the C6 witness's user-override conjunct. -/
def envC6 : LocateEnv :=
  { configPath := "/home/user/zls"
    enabled := ZlsEnabled.ask
    zigVersion := Except.error ()
    fetched := none
    isWindows := false
    storageRoot := "/storage"
    existsAt := fun _ => false
    installOk := false
    reported := fun _ => some (SemVer.mk 0 13 0 "0.13.0") }

/-- Locate environment of the C6 witness's mismatch conjunct: the
auto-resolved path expects 1.2.4 but the binary reports 1.2.3. -/
def envC6b : LocateEnv :=
  { configPath := ""
    enabled := ZlsEnabled.on
    zigVersion := Except.ok (some (SemVer.mk 0 12 0 "0.12.0"))
    fetched := some (SemVer.mk 1 2 4 "1.2.4", ArtifactEntry.mk "url" "sha" "123")
    isWindows := false
    storageRoot := "/storage"
    existsAt := fun _ => true
    installOk := true
    reported := fun _ => some (SemVer.mk 1 2 3 "1.2.3") }

/-- Witness for C6: the override path accepts any parseable version, and
a 1.2.3-versus-1.2.4 mismatch on the auto path fails with an error. -/
theorem c6_version_verifier_witness :
    (getZLSPath envC6).1 = some ("/home/user/zls", SemVer.mk 0 13 0 "0.13.0") ∧
    ((getZLSPath envC6b).1 = none ∧ (getZLSPath envC6b).2 ≠ []) :=
  ⟨(c6_version_verifier envC6).2.2.1 (SemVer.mk 0 13 0 "0.13.0") (by decide) rfl,
   (c6_version_verifier envC6b).2.2.2 "/storage/zls/1.2.4/zls"
     (SemVer.mk 1 2 4 "1.2.4") (SemVer.mk 1 2 3 "1.2.3") rfl rfl (by decide)⟩

/-- C4 counterexample: a network failure whose thrown value is not an
`Error` instance, with no cached response, is neither surfaced as a
message nor answered with the null result — `fetchVersion` re-raises it
(`throw err`, zls.ts:301), so the claim's unconditional "surface a
fetch-failure error and return null" is false at this input. -/
theorem c4_counterexample :
    (fetchVersion (Except.error (NetError.mk false "boom")) "x86_64-linux"
        "0.12.0" true []).1 = FetchOutcome.rethrown ∧
    (fetchVersion (Except.error (NetError.mk false "boom")) "x86_64-linux"
        "0.12.0" true []).2.2 = [] :=
  ⟨rfl, rfl⟩

/-- C4 (amended): on a network failure with caching enabled, a cached
response under the exact compiler-version key is used unchanged — the
result is computed from the very cached value and the cache is untouched;
with no cached response, a thrown `Error` is surfaced as a fetch-failure
message and the outcome is null, while a thrown non-`Error` is re-raised. -/
theorem c4_cached_fallback (err : NetError) (host zv : String) (cache : Cache)
    (r : RawResponse) :
    (getAssoc cache ("zls-select-version-" ++ zv) = some r →
      fetchVersion (Except.error err) host zv true cache =
        ((interpretResponse host r).1, cache, (interpretResponse host r).2)) ∧
    (getAssoc cache ("zls-select-version-" ++ zv) = none → err.isError = true →
      fetchVersion (Except.error err) host zv true cache =
        (FetchOutcome.notFound, cache,
         ["Failed to query ZLS version: " ++ err.message])) := by
  constructor
  · intro hc
    simp [fetchVersion, hc]
  · intro hc hi
    simp [fetchVersion, hc, hi]

/-- A cached success response used by the C4 witness. -/
def respC4 : RawResponse :=
  RawResponse.mk none none "0.13.0" "2024-06-01"
    [("x86_64-linux", ArtifactEntry.mk "https://example.invalid/zls.tar.xz" "abc" "123")]

/-- Cache holding `respC4` under the key for compiler version 0.12.0. -/
def cacheC4 : Cache := [("zls-select-version-0.12.0", respC4)]

/-- Witness for the amended C4: cached fallback on a populated cache, and
the surfaced error on an empty cache. -/
theorem c4_cached_fallback_witness :
    (fetchVersion (Except.error (NetError.mk true "offline")) "x86_64-linux"
        "0.12.0" true cacheC4 =
      ((interpretResponse "x86_64-linux" respC4).1, cacheC4,
       (interpretResponse "x86_64-linux" respC4).2)) ∧
    (fetchVersion (Except.error (NetError.mk true "offline")) "x86_64-linux"
        "0.12.0" true [] =
      (FetchOutcome.notFound, [],
       ["Failed to query ZLS version: " ++ (NetError.mk true "offline").message])) :=
  ⟨(c4_cached_fallback (NetError.mk true "offline") "x86_64-linux" "0.12.0"
      cacheC4 respC4).1 rfl,
   (c4_cached_fallback (NetError.mk true "offline") "x86_64-linux" "0.12.0"
      [] respC4).2 rfl rfl⟩

/-- C9: `fetchVersion` persists the raw response before inspecting its
shape, so a failure-shaped payload from a successful request is cached
under the compiler-version key while being surfaced as an error with the
null outcome; a later call hitting a network failure falls back to that
cached failure payload, surfaces its message again, and returns null. -/
theorem c9_failure_payload_cached (r : RawResponse) (m : String) (host zv : String)
    (cache : Cache) (err : NetError) (hm : r.message? = some m) :
    (fetchVersion (Except.ok r) host zv true cache).1 = FetchOutcome.notFound ∧
    getAssoc (fetchVersion (Except.ok r) host zv true cache).2.1
      ("zls-select-version-" ++ zv) = some r ∧
    (fetchVersion (Except.ok r) host zv true cache).2.2 =
      ["Unable to fetch ZLS: " ++ m] ∧
    (fetchVersion (Except.error err) host zv true
        (fetchVersion (Except.ok r) host zv true cache).2.1).1 =
      FetchOutcome.notFound ∧
    (fetchVersion (Except.error err) host zv true
        (fetchVersion (Except.ok r) host zv true cache).2.1).2.2 =
      ["Unable to fetch ZLS: " ++ m] := by
  have hkey : getAssoc (setAssoc cache ("zls-select-version-" ++ zv) r)
      ("zls-select-version-" ++ zv) = some r := by
    rw [getAssoc_setAssoc]
    simp
  refine ⟨?_, ?_, ?_, ?_, ?_⟩
  · simp [fetchVersion, interpretResponse, hm]
  · simp [fetchVersion, hkey]
  · simp [fetchVersion, interpretResponse, hm]
  · simp [fetchVersion, interpretResponse, hm, hkey]
  · simp [fetchVersion, interpretResponse, hm, hkey]

/-- The failure-shaped payload of the C9 witness. -/
def respC9 : RawResponse :=
  RawResponse.mk (some "no ZLS build for this Zig version") (some 1) "" "" []

/-- Witness for C9 at a concrete failure payload and a later offline
call. -/
theorem c9_failure_payload_cached_witness :
    (fetchVersion (Except.ok respC9) "x86_64-linux" "0.12.0" true []).1 =
      FetchOutcome.notFound ∧
    getAssoc (fetchVersion (Except.ok respC9) "x86_64-linux" "0.12.0" true []).2.1
      ("zls-select-version-" ++ "0.12.0") = some respC9 ∧
    (fetchVersion (Except.ok respC9) "x86_64-linux" "0.12.0" true []).2.2 =
      ["Unable to fetch ZLS: " ++ "no ZLS build for this Zig version"] ∧
    (fetchVersion (Except.error (NetError.mk true "offline")) "x86_64-linux" "0.12.0"
        true (fetchVersion (Except.ok respC9) "x86_64-linux" "0.12.0" true []).2.1).1 =
      FetchOutcome.notFound ∧
    (fetchVersion (Except.error (NetError.mk true "offline")) "x86_64-linux" "0.12.0"
        true (fetchVersion (Except.ok respC9) "x86_64-linux" "0.12.0" true []).2.1).2.2 =
      ["Unable to fetch ZLS: " ++ "no ZLS build for this Zig version"] :=
  c9_failure_payload_cached respC9 "no ZLS build for this Zig version" "x86_64-linux"
    "0.12.0" [] (NetError.mk true "offline") rfl

end VZ
